import Mathlib

/-!
Verification development for the seller-credit-optimizer scenario engine.

The numeric model uses exact rationals (ℚ) for the JavaScript `number`
arithmetic of the source.  Term lengths are natural numbers (the data model
requires a positive integer of months, used only as an exponent and a
divisor).  Optional input fields are `Option ℚ`; the engine's `??` defaults
become `Option.getD`.
-/

namespace SellerCredit

/-- Loan program enum, from `types/mortgage.ts` (`Program`). -/
inductive Program where
  | Conventional
  | FHA
  | VA
  | USDA
  | Jumbo
deriving DecidableEq, Repr

/-- Display name of a program, used in warning strings (template literal
`${s.program}` in `computeScenario`). -/
def Program.name : Program → String
  | .Conventional => "Conventional"
  | .FHA => "FHA"
  | .VA => "VA"
  | .USDA => "USDA"
  | .Jumbo => "Jumbo"

/-- PMI type enum, from `types/mortgage.ts` (`pmiType` field). `NoneP` is the
string literal "None". -/
inductive PmiType where
  | BPMI
  | SPMI
  | LPMI
  | NoneP
deriving DecidableEq, Repr

/-- `ScenarioInput` of `types/mortgage.ts` (the `name` string field is
irrelevant to the computation and omitted).  `lockRate?: boolean` is modelled
as `Bool` because the engine only tests its truthiness (`!s.lockRate`), under
which `undefined` and `false` coincide. -/
structure ScenarioInput where
  price : ℚ
  ltv : Option ℚ
  loanAmount : Option ℚ
  program : Program
  termMonths : ℕ
  noteRate : ℚ
  discountPointsPct : ℚ
  closingCosts : ℚ
  sellerCredit : ℚ
  pmiType : Option PmiType
  pmiAnnualFactor : Option ℚ
  taxesMonthly : Option ℚ
  insuranceMonthly : Option ℚ
  hoaMonthly : Option ℚ
  lockRate : Bool
deriving DecidableEq, Repr

/-- One entry of `allocationSteps` (`{rate, pointsCost, monthlySave,
breakEven}`).  Accepted steps always carry the finite integer
`Math.ceil(stepCost / monthlySave)`, so `breakEven : ℤ`. -/
structure AllocStep where
  rate : ℚ
  pointsCost : ℚ
  monthlySave : ℚ
  breakEven : ℤ
deriving DecidableEq, Repr

/-- `ScenarioOutput` as actually returned by `computeScenario` in
`lib/mortgage`.

The TypeScript interface `ScenarioOutput` declares a required field
`finalRate: number`, but the object literal returned by `computeScenario`
contains no `finalRate` property (the computed local `newRate` is used for
the payment and APR but never returned), so at runtime the field is
`undefined`.  The field is therefore modelled as `Option ℚ` and the engine
produces `none` for it. -/
structure ScenarioOutput where
  loanAmount : ℚ
  pointsCost : ℚ
  appliedSellerCredit : ℚ
  appliedToPoints : ℚ
  appliedToCosts : ℚ
  finalRate : Option ℚ
  pAndI : ℚ
  pmiMonthly : ℚ
  pitiMonthly : ℚ
  cashToClose : ℚ
  aprEstimate : ℚ
  breakEvenMonthsOnPoints : Option ℤ
  warnings : List String
  allocationSteps : List AllocStep
deriving DecidableEq, Repr

/-! ### FHA MIP resolver (`lib/fha`) -/

/-- High-balance threshold of `lib/fha` (`FHA_HIGH_BALANCE_THRESHOLD`). -/
def FHA_HIGH_BALANCE_THRESHOLD : ℚ := 726200

/-- Second branch of `normalizeLtv`: derive the ratio as
`loanAmount / price` when both are positive; otherwise undetermined. -/
def normalizeLtvFromLoan (s : ScenarioInput) : Option ℚ :=
  match s.loanAmount with
  | some la => if 0 < la ∧ 0 < s.price then some (la / s.price) else none
  | none => none

/-- `normalizeLtv` of `lib/fha`: a provided positive ltv is taken directly
(ℚ values are always finite, so the `isFinite` guard is vacuous); otherwise
fall through to the loan-amount/price derivation. -/
def normalizeLtv (s : ScenarioInput) : Option ℚ :=
  match s.ltv with
  | some v => if 0 < v then some v else normalizeLtvFromLoan s
  | none => normalizeLtvFromLoan s

/-- `normalizeLoanAmount` of `lib/fha`: a provided positive loan amount is
taken directly; otherwise derived as `price * ltv` when the normalized ltv
exists and the price is positive. -/
def normalizeLoanAmount (s : ScenarioInput) (ltv : Option ℚ) : Option ℚ :=
  match s.loanAmount with
  | some la =>
      if 0 < la then some la
      else
        match ltv with
        | some l => if 0 < s.price then some (s.price * l) else none
        | none => none
  | none =>
      match ltv with
      | some l => if 0 < s.price then some (s.price * l) else none
      | none => none

/-- `getStandardFhaAnnualMipFactor` of `lib/fha`.  `!termMonths` (falsy)
is `termMonths = 0` for a natural number of months. -/
def getStandardFhaAnnualMipFactor (s : ScenarioInput) : Option ℚ :=
  let ltv := normalizeLtv s
  let loanAmount := normalizeLoanAmount s ltv
  match ltv, loanAmount with
  | some l, some a =>
      if s.termMonths = 0 then none
      else
        if 180 < s.termMonths then
          if FHA_HIGH_BALANCE_THRESHOLD < a then
            if l ≤ 0.90 then some 0.0055 else some 0.0060
          else
            if l ≤ 0.90 then some 0.0050 else some 0.0055
        else
          if FHA_HIGH_BALANCE_THRESHOLD < a then
            if l ≤ 0.90 then some 0.0040 else some 0.0065
          else
            if l ≤ 0.90 then some 0.0015 else some 0.0040
  | _, _ => none

/-! ### Scenario compute engine (`lib/mortgage`) -/

/-- `DEFAULT_CAPS` of `lib/mortgage`: program seller-credit cap, as a
fraction of price, as a function of effective LTV. -/
def defaultCap (p : Program) (ltv : ℚ) : ℚ :=
  match p with
  | .Conventional => if 0.90 < ltv then 0.03 else if 0.75 < ltv then 0.06 else 0.09
  | .FHA => 0.06
  | .VA => 0.04
  | .USDA => 0.06
  | .Jumbo => 0.03

/-- `amortPayment` of `lib/mortgage`: standard fixed-rate level payment.
Exact-rational model of the double computation; `r = (ratePct/100)/12`;
the zero-rate branch avoids a division by zero. -/
def amortPayment (loan : ℚ) (ratePct : ℚ) (termMonths : ℕ) : ℚ :=
  let r := ratePct / 100 / 12
  if r = 0 then loan / termMonths
  else
    let pow := (1 + r) ^ termMonths
    loan * (r * pow) / (pow - 1)

/-- `pmiMonthly` of `lib/mortgage`.  The `factor` truthiness check
(`pmiType === "BPMI" && factor`) makes an absent or zero factor yield 0. -/
def pmiMonthly (pmiType : Option PmiType) (factor : Option ℚ) (loan : ℚ) : ℚ :=
  match pmiType with
  | none => 0
  | some .NoneP => 0
  | some .BPMI =>
      match factor with
      | some f => if f = 0 then 0 else f * loan / 12
      | none => 0
  | some .SPMI => 0
  | some .LPMI => 0

/-- Rate decrement bought by one buydown step (`stepRate = 0.125`). -/
def stepRate : ℚ := 0.125

/-- Cost of one buydown step as a percentage of the loan amount
(`stepPointsPct = 0.50`). -/
def stepPointsPct : ℚ := 0.50

/-- `loanAmount = s.loanAmount ?? (s.price * (s.ltv ?? 0))`. -/
def resolvedLoanAmount (s : ScenarioInput) : ℚ :=
  s.loanAmount.getD (s.price * s.ltv.getD 0)

/-- `pointsCost = loanAmount * (s.discountPointsPct/100)`. -/
def pointsCostOf (s : ScenarioInput) : ℚ :=
  resolvedLoanAmount s * (s.discountPointsPct / 100)

/-- `pctCap = DEFAULT_CAPS[s.program](s.ltv ?? loanAmount/s.price)`. -/
def pctCapOf (s : ScenarioInput) : ℚ :=
  defaultCap s.program (s.ltv.getD (resolvedLoanAmount s / s.price))

/-- `programCapDollars = s.price * pctCap`. -/
def programCapDollars (s : ScenarioInput) : ℚ :=
  s.price * pctCapOf s

/-- `eligibleCosts = pointsCost + s.closingCosts`. -/
def eligibleCosts (s : ScenarioInput) : ℚ :=
  pointsCostOf s + s.closingCosts

/-- `maxUsableCredit = Math.min(s.sellerCredit, programCapDollars,
eligibleCosts)`. -/
def maxUsableCredit (s : ScenarioInput) : ℚ :=
  min s.sellerCredit (min (programCapDollars s) (eligibleCosts s))

/-- `stepCost = loanAmount * (stepPointsPct/100)`, constant across the
loop's iterations. -/
def allocStepCost (loanAmount : ℚ) : ℚ :=
  loanAmount * (stepPointsPct / 100)

/-- Mutable state of the buydown `while` loop of `computeScenario`:
`remaining`, `candidateRate`, `appliedToPoints` and the `steps` list. -/
structure LoopSt where
  remaining : ℚ
  candidateRate : ℚ
  appliedToPoints : ℚ
  steps : List AllocStep
deriving DecidableEq, Repr

/-- One pass of the buydown loop body.  `none` means the loop exits here:
either the `while` condition `remaining > 0` fails, or one of the `break`s
fires (`stepCost > remaining`; `monthlySave` not positive — the JS
`breakEven` is `Infinity`; or `breakEven > 84`).  `some` is a completed
iteration accepting one step. -/
def allocIter (loanAmount : ℚ) (termMonths : ℕ) (st : LoopSt) : Option LoopSt :=
  if st.remaining ≤ 0 then none
  else
    let stepCost := allocStepCost loanAmount
    if st.remaining < stepCost then none
    else
      let before := amortPayment loanAmount st.candidateRate termMonths
      let after := amortPayment loanAmount (st.candidateRate - stepRate) termMonths
      let monthlySave := max 0 (before - after)
      if monthlySave ≤ 0 then none
      else
        let breakEven := ⌈stepCost / monthlySave⌉
        if 84 < breakEven then none
        else
          some { remaining := st.remaining - stepCost
                 candidateRate := st.candidateRate - stepRate
                 appliedToPoints := st.appliedToPoints + stepCost
                 steps := st.steps ++
                   [{ rate := st.candidateRate - stepRate
                      pointsCost := stepCost
                      monthlySave := monthlySave
                      breakEven := breakEven }] }

/-- Fuelled unfolding of the `while (remaining > 0)` loop.  The boolean is
`true` exactly when the loop exited by its own logic (condition false or a
`break`) within `fuel` iterations of the body; `allocLoop_done_of_le` below
proves the spec's iteration bound is always enough fuel when the step cost
is positive, so the fuelled function agrees with the unbounded source loop
there. -/
def allocLoop (loanAmount : ℚ) (termMonths : ℕ) : ℕ → LoopSt → LoopSt × Bool
  | 0, st => (st, decide (st.remaining ≤ 0))
  | fuel + 1, st =>
      match allocIter loanAmount termMonths st with
      | none => (st, true)
      | some st' => allocLoop loanAmount termMonths fuel st'

/-- Fuel given to `allocLoop`: the spec's own iteration bound
`ceil(maxUsableCredit / stepCost)` (clamped to ℕ). -/
def allocFuel (s : ScenarioInput) : ℕ :=
  (⌈maxUsableCredit s / allocStepCost (resolvedLoanAmount s)⌉).toNat

/-- Loop state on entry: `remaining = maxUsableCredit`,
`candidateRate = s.noteRate`, `appliedToPoints = 0`, no steps. -/
def allocState0 (s : ScenarioInput) : LoopSt :=
  { remaining := maxUsableCredit s
    candidateRate := s.noteRate
    appliedToPoints := 0
    steps := [] }

/-- Final loop state: the loop is skipped entirely when `lockRate` is set
(`if (!s.lockRate)` in the source). -/
def allocResult (s : ScenarioInput) : LoopSt :=
  if s.lockRate then allocState0 s
  else (allocLoop (resolvedLoanAmount s) s.termMonths (allocFuel s) (allocState0 s)).1

/-- `Math.round`: round half toward positive infinity. -/
def jsRound (q : ℚ) : ℤ := ⌊q + 1/2⌋

/-- `Number(x.toFixed 2)`: round to 2 decimals, ties away from zero. -/
def toFixed2 (q : ℚ) : ℚ :=
  if q < 0 then -((⌊(-q) * 100 + 1/2⌋ : ℚ) / 100)
  else (⌊q * 100 + 1/2⌋ : ℚ) / 100

/-- `Number(x.toFixed 3)`: round to 3 decimals, ties away from zero. -/
def toFixed3 (q : ℚ) : ℚ :=
  if q < 0 then -((⌊(-q) * 1000 + 1/2⌋ : ℚ) / 1000)
  else (⌊q * 1000 + 1/2⌋ : ℚ) / 1000

/-- `x.toFixed(1)` as a string, for the cap-percentage interpolation of the
cap warning (ties away from zero; the engine only formats small exact
decimals here). -/
def toFixed1String (q : ℚ) : String :=
  let sign := if q < 0 then "-" else ""
  let n := (⌊|q| * 10 + 1/2⌋).toNat
  sign ++ toString (n / 10) ++ "." ++ toString (n % 10)

/-- The cap warning string:
`` `Seller credit exceeds typical ${s.program} cap (~${(pctCap*100).toFixed(1)}%).` ``. -/
def capWarning (p : Program) (pctCap : ℚ) : String :=
  "Seller credit exceeds typical " ++ p.name ++ " cap (~" ++
    toFixed1String (pctCap * 100) ++ "%)."

/-- The unusable-credit warning string. -/
def usableWarning : String :=
  "Not all seller credit usable given current costs/points."

/-- `steps.reduce((a,b)=>a+b.monthlySave, 0)`. -/
def sumMonthlySave (steps : List AllocStep) : ℚ :=
  steps.foldl (fun a b => a + b.monthlySave) 0

/-- `computeScenario` of `lib/mortgage`, assembled from the pieces above in
the source's order. -/
def computeScenario (s : ScenarioInput) : ScenarioOutput :=
  let loanAmount := resolvedLoanAmount s
  let pointsCost := pointsCostOf s
  let pctCap := pctCapOf s
  let res := allocResult s
  let appliedToPoints := res.appliedToPoints
  let newRate := res.candidateRate
  let steps := res.steps
  let pni := amortPayment loanAmount newRate s.termMonths
  let fhaDefaultMip :=
    if s.program = Program.FHA then getStandardFhaAnnualMipFactor s else none
  let annualFactor :=
    match s.pmiAnnualFactor with
    | some f => some f
    | none => fhaDefaultMip
  let pmi := pmiMonthly s.pmiType annualFactor loanAmount
  let appliedSellerCredit :=
    appliedToPoints + min s.closingCosts (maxUsableCredit s - appliedToPoints)
  let appliedToCosts := appliedSellerCredit - appliedToPoints
  let piti := pni + pmi + s.taxesMonthly.getD 0 + s.insuranceMonthly.getD 0 +
    s.hoaMonthly.getD 0
  let cashToClose := (s.price - loanAmount) + (s.closingCosts - appliedToCosts)
  let aprEstimate :=
    max newRate (newRate + ((appliedToPoints / loanAmount) * 100) * (30 / 360))
  let warnings :=
    (if programCapDollars s < s.sellerCredit then [capWarning s.program pctCap] else [])
      ++ (if appliedSellerCredit < s.sellerCredit then [usableWarning] else [])
  let breakEvenMonthsOnPoints :=
    if steps.isEmpty then none
    else
      let t := sumMonthlySave steps
      some (jsRound (appliedToPoints / (if t = 0 then 1 else t)))
  { loanAmount := loanAmount
    pointsCost := pointsCost
    appliedSellerCredit := appliedSellerCredit
    appliedToPoints := appliedToPoints
    appliedToCosts := appliedToCosts
    finalRate := none
    pAndI := toFixed2 pni
    pmiMonthly := toFixed2 pmi
    pitiMonthly := toFixed2 piti
    cashToClose := toFixed2 cashToClose
    aprEstimate := toFixed3 aprEstimate
    breakEvenMonthsOnPoints := breakEvenMonthsOnPoints
    warnings := warnings
    allocationSteps := steps }

/-! ### Concrete scenarios for witnesses

`scenB` is the spec's end-to-end scenario B (scenario A with the rate
locked).  `scenQuick` is a one-month-term scenario on which all loop
arithmetic stays small and exact.  `scenJumbo` is the spec's scenario D
shape (Jumbo, price 500000, seller credit 20000, rate locked). -/

def scenB : ScenarioInput :=
  { price := 450000, ltv := some 0.95, loanAmount := none,
    program := Program.Conventional, termMonths := 360, noteRate := 6.875,
    discountPointsPct := 0, closingCosts := 9000, sellerCredit := 12000,
    pmiType := some PmiType.BPMI, pmiAnnualFactor := some 0.006,
    taxesMonthly := some 350, insuranceMonthly := some 110, hoaMonthly := none,
    lockRate := true }

def scenQuick : ScenarioInput :=
  { price := 100000, ltv := none, loanAmount := some 100000,
    program := Program.Conventional, termMonths := 1, noteRate := 6.875,
    discountPointsPct := 0, closingCosts := 1000, sellerCredit := 600,
    pmiType := none, pmiAnnualFactor := none, taxesMonthly := none,
    insuranceMonthly := none, hoaMonthly := none, lockRate := false }

/-- The single allocation step accepted on `scenQuick`. -/
def quickStep : AllocStep :=
  { rate := 27/4, pointsCost := 500, monthlySave := 125/12, breakEven := 48 }

def scenJumbo : ScenarioInput :=
  { price := 500000, ltv := some 0.8, loanAmount := none,
    program := Program.Jumbo, termMonths := 360, noteRate := 7,
    discountPointsPct := 0, closingCosts := 10000, sellerCredit := 20000,
    pmiType := none, pmiAnnualFactor := none, taxesMonthly := none,
    insuranceMonthly := none, hoaMonthly := none, lockRate := true }

/-- Spec scenario C: FHA, ltv 0.97, loan 300000 directly, 360 months. -/
def scenC : ScenarioInput :=
  { price := 310000, ltv := some 0.97, loanAmount := some 300000,
    program := Program.FHA, termMonths := 360, noteRate := 6.5,
    discountPointsPct := 0, closingCosts := 8000, sellerCredit := 5000,
    pmiType := some PmiType.BPMI, pmiAnnualFactor := none,
    taxesMonthly := none, insuranceMonthly := none, hoaMonthly := none,
    lockRate := false }

/-! ### The buydown loop invariant -/

/-- What acceptance of a step guarantees about its record. -/
def stepInvariant (la : ℚ) (x : AllocStep) : Prop :=
  x.pointsCost = allocStepCost la ∧ 0 < x.monthlySave ∧
    x.breakEven = ⌈x.pointsCost / x.monthlySave⌉ ∧ x.breakEven ≤ 84

/-- Loop-state invariant maintained by every iteration of the buydown
loop: `appliedToPoints` is the sum of the accepted steps' costs, and every
accepted step satisfies `stepInvariant`. -/
def loopInvariant (la : ℚ) (st : LoopSt) : Prop :=
  st.appliedToPoints = (st.steps.map AllocStep.pointsCost).sum ∧
    ∀ x ∈ st.steps, stepInvariant la x

/-! ### Projection lemmas for `computeScenario` -/

theorem computeScenario_allocationSteps (s : ScenarioInput) :
    (computeScenario s).allocationSteps = (allocResult s).steps := rfl

theorem computeScenario_appliedToPoints (s : ScenarioInput) :
    (computeScenario s).appliedToPoints = (allocResult s).appliedToPoints := rfl

theorem computeScenario_appliedSellerCredit (s : ScenarioInput) :
    (computeScenario s).appliedSellerCredit =
      (allocResult s).appliedToPoints +
        min s.closingCosts (maxUsableCredit s - (allocResult s).appliedToPoints) := rfl

theorem computeScenario_appliedToCosts (s : ScenarioInput) :
    (computeScenario s).appliedToCosts =
      (computeScenario s).appliedSellerCredit - (computeScenario s).appliedToPoints := rfl

theorem computeScenario_finalRate (s : ScenarioInput) :
    (computeScenario s).finalRate = none := rfl

theorem computeScenario_pointsCost (s : ScenarioInput) :
    (computeScenario s).pointsCost = pointsCostOf s := rfl

theorem computeScenario_warnings (s : ScenarioInput) :
    (computeScenario s).warnings =
      (if programCapDollars s < s.sellerCredit
        then [capWarning s.program (pctCapOf s)] else [])
      ++ (if (computeScenario s).appliedSellerCredit < s.sellerCredit
            then [usableWarning] else []) := rfl

theorem computeScenario_breakEvenMonthsOnPoints (s : ScenarioInput) :
    (computeScenario s).breakEvenMonthsOnPoints =
      (if (allocResult s).steps.isEmpty then none
       else
        let t := sumMonthlySave (allocResult s).steps
        some (jsRound ((allocResult s).appliedToPoints / (if t = 0 then 1 else t)))) := rfl

/-! ### Helper lemmas -/

/-- Evaluate an integer ceiling from rational bounds. -/
theorem ceil_eval (q : ℚ) (z : ℤ) (h1 : (z : ℚ) - 1 < q) (h2 : q ≤ (z : ℚ)) :
    ⌈q⌉ = z := by
  rw [Int.ceil_eq_iff]
  exact ⟨h1, h2⟩

/-- Evaluate an integer floor from rational bounds. -/
theorem floor_eval (q : ℚ) (z : ℤ) (h1 : (z : ℚ) ≤ q) (h2 : q < (z : ℚ) + 1) :
    ⌊q⌋ = z := by
  rw [Int.floor_eq_iff]
  · exact ⟨h1, by exact_mod_cast h2⟩

/-- The running `reduce` is the sum of the mapped list. -/
theorem sumMonthlySave_eq (l : List AllocStep) :
    sumMonthlySave l = (l.map AllocStep.monthlySave).sum := by
  have key : ∀ (l' : List AllocStep) (a : ℚ),
      l'.foldl (fun x b => x + b.monthlySave) a = a + (l'.map AllocStep.monthlySave).sum := by
    intro l'
    induction l' with
    | nil => intro a; simp
    | cons x xs ih =>
      intro a
      simp [List.foldl_cons, ih, add_assoc]
  simpa using key l 0

/-- A list whose elements all carry the same `pointsCost` sums to that cost
times the length. -/
theorem sum_pointsCost_const (l : List AllocStep) (c : ℚ)
    (h : ∀ x ∈ l, x.pointsCost = c) :
    (l.map AllocStep.pointsCost).sum = c * l.length := by
  induction l with
  | nil => simp
  | cons x xs ih =>
    have hx := h x (by simp)
    have hxs : ∀ y ∈ xs, y.pointsCost = c := fun y hy => h y (by simp [hy])
    simp [hx, ih hxs]
    ring

/-- Characterization of a completed iteration. -/
theorem allocIter_some (la : ℚ) (tm : ℕ) (st st' : LoopSt)
    (h : allocIter la tm st = some st') :
    ∃ ms : ℚ, 0 < ms ∧ ⌈allocStepCost la / ms⌉ ≤ 84 ∧
      st' = { remaining := st.remaining - allocStepCost la
              candidateRate := st.candidateRate - stepRate
              appliedToPoints := st.appliedToPoints + allocStepCost la
              steps := st.steps ++
                [{ rate := st.candidateRate - stepRate
                   pointsCost := allocStepCost la
                   monthlySave := ms
                   breakEven := ⌈allocStepCost la / ms⌉ }] } := by
  unfold allocIter at h
  by_cases h0 : st.remaining ≤ 0
  · simp [h0] at h
  · simp only [h0, if_false] at h
    by_cases h1 : st.remaining < allocStepCost la
    · simp [h1] at h
    · simp only [h1, if_false] at h
      set ms := max 0
        (amortPayment la st.candidateRate tm -
          amortPayment la (st.candidateRate - stepRate) tm) with hms
      by_cases h2 : ms ≤ 0
      · simp [← hms, h2] at h
      · simp only [← hms, h2, if_false] at h
        by_cases h3 : 84 < ⌈allocStepCost la / ms⌉
        · simp [h3] at h
        · simp only [h3, if_false, Option.some.injEq] at h
          exact ⟨ms, lt_of_not_le h2, le_of_not_lt h3, h.symm⟩

/-- One iteration preserves the loop invariant. -/
theorem allocIter_invariant (la : ℚ) (tm : ℕ) (st st' : LoopSt)
    (h : allocIter la tm st = some st') (hinv : loopInvariant la st) :
    loopInvariant la st' := by
  obtain ⟨ms, hms, hbe, rfl⟩ := allocIter_some la tm st st' h
  obtain ⟨hsum, hall⟩ := hinv
  constructor
  · simp [hsum]
  · intro x hx
    rcases List.mem_append.1 hx with hx | hx
    · exact hall x hx
    · simp at hx
      subst hx
      exact ⟨rfl, hms, rfl, hbe⟩

/-- Any fuelled unfolding of the loop preserves the invariant. -/
theorem allocLoop_invariant (la : ℚ) (tm : ℕ) :
    ∀ (fuel : ℕ) (st : LoopSt), loopInvariant la st →
      loopInvariant la (allocLoop la tm fuel st).1 := by
  intro fuel
  induction fuel with
  | zero => intro st h; exact h
  | succ n ih =>
    intro st h
    unfold allocLoop
    cases hit : allocIter la tm st with
    | none => exact h
    | some st' => exact ih st' (allocIter_invariant la tm st st' hit h)

/-- The engine's final loop state satisfies the invariant. -/
theorem allocResult_invariant (s : ScenarioInput) :
    loopInvariant (resolvedLoanAmount s) (allocResult s) := by
  have h0 : loopInvariant (resolvedLoanAmount s) (allocState0 s) := by
    constructor
    · simp [allocState0]
    · intro x hx
      simp [allocState0] at hx
  unfold allocResult
  split
  · exact h0
  · exact allocLoop_invariant _ _ _ _ h0

theorem allocLoop_zero (la : ℚ) (tm : ℕ) (st : LoopSt) :
    allocLoop la tm 0 st = (st, decide (st.remaining ≤ 0)) := rfl

theorem allocLoop_succ (la : ℚ) (tm : ℕ) (n : ℕ) (st : LoopSt) :
    allocLoop la tm (n + 1) st =
      match allocIter la tm st with
      | none => (st, true)
      | some st' => allocLoop la tm n st' := rfl

/-! ### Claim theorems -/

/-- C4: when the LTV and loan amount both normalize and termMonths is
nonzero, `getStandardFhaAnnualMipFactor` returns exactly the tabulated MIP
factor, with the 90% LTV boundary inclusively selecting the lower factor. -/
theorem fha_mip_factor_table (s : ScenarioInput) (l a : ℚ)
    (hl : normalizeLtv s = some l)
    (ha : normalizeLoanAmount s (normalizeLtv s) = some a)
    (ht : s.termMonths ≠ 0) :
    getStandardFhaAnnualMipFactor s = some
      (if 180 < s.termMonths then
        if 726200 < a then (if l ≤ 0.90 then 0.0055 else 0.0060)
        else (if l ≤ 0.90 then 0.0050 else 0.0055)
      else
        if 726200 < a then (if l ≤ 0.90 then 0.0040 else 0.0065)
        else (if l ≤ 0.90 then 0.0015 else 0.0040)) := by
  simp only [getStandardFhaAnnualMipFactor, FHA_HIGH_BALANCE_THRESHOLD]
  rw [ha, hl]
  simp only [ht, if_false]
  split_ifs <;> rfl

/-- C5: the FHA MIP resolver returns no factor exactly when the LTV or the
loan amount cannot be normalized, or `termMonths` is zero. -/
theorem fha_mip_undetermined_iff (s : ScenarioInput) :
    getStandardFhaAnnualMipFactor s = none ↔
      normalizeLtv s = none ∨ normalizeLoanAmount s (normalizeLtv s) = none ∨
        s.termMonths = 0 := by
  simp only [getStandardFhaAnnualMipFactor]
  cases h1 : normalizeLtv s with
  | none =>
    cases h2 : normalizeLoanAmount s none with
    | none => simp [h1, h2]
    | some a => simp [h1, h2]
  | some l =>
    cases h2 : normalizeLoanAmount s (some l) with
    | none => simp [h1, h2]
    | some a =>
      by_cases ht : s.termMonths = 0
      · simp [h1, h2, ht]
      · simp only [h1, h2, ht, if_false]
        split_ifs <;> simp [ht]

/-- C6: the amortized-payment function returns exactly
`loanAmount / termMonths` when the note rate percentage is zero (the
monthly rate `r = (ratePct/100)/12` vanishes exactly then), and otherwise
the standard level-payment formula. -/
theorem amortPayment_formula (loan ratePct : ℚ) (tm : ℕ) :
    amortPayment loan ratePct tm =
      if ratePct = 0 then loan / tm
      else loan * ((ratePct / 100 / 12) * (1 + ratePct / 100 / 12) ^ tm) /
             ((1 + ratePct / 100 / 12) ^ tm - 1) := by
  unfold amortPayment
  by_cases h : ratePct = 0
  · simp [h]
  · have h' : ratePct / 100 / 12 ≠ 0 := by
      intro hc
      simp [div_eq_zero_iff] at hc
      exact h hc
    simp [h, h']

/-- C1: with the rate locked, no buydown step is taken (`appliedToPoints`
is 0 and `allocationSteps` is empty); however the returned record carries
no `finalRate` value at all (the source's return object omits the field
required by the `ScenarioOutput` interface), so `finalRate` is not the
note rate as claimed. -/
theorem lockRate_no_buydown (s : ScenarioInput) (h : s.lockRate = true) :
    (computeScenario s).appliedToPoints = 0 ∧
      (computeScenario s).allocationSteps = [] ∧
      (computeScenario s).finalRate = none := by
  refine ⟨?_, ?_, computeScenario_finalRate s⟩
  · rw [computeScenario_appliedToPoints]
    unfold allocResult
    simp [h, allocState0]
  · rw [computeScenario_allocationSteps]
    unfold allocResult
    simp [h, allocState0]

/-- C2: the applied seller credit splits exactly into the points part and
the costs part, and never exceeds the minimum of the seller credit, the
program cap in dollars, and the eligible costs (points cost plus closing
costs).  In the exact rational model the split identity is exact, hence in
particular within the claim's 1e-6 tolerance. -/
theorem credit_split_invariant (s : ScenarioInput)
    (h1 : 0 ≤ s.sellerCredit) (h2 : 0 ≤ s.closingCosts)
    (h3 : 0 < resolvedLoanAmount s) :
    (computeScenario s).appliedToPoints + (computeScenario s).appliedToCosts =
        (computeScenario s).appliedSellerCredit ∧
      (computeScenario s).appliedSellerCredit ≤
        min s.sellerCredit (min (programCapDollars s)
          ((computeScenario s).pointsCost + s.closingCosts)) := by
  constructor
  · rw [computeScenario_appliedToCosts]
    ring
  · rw [computeScenario_appliedSellerCredit, computeScenario_pointsCost]
    have hmin : min s.closingCosts (maxUsableCredit s - (allocResult s).appliedToPoints)
        ≤ maxUsableCredit s - (allocResult s).appliedToPoints := min_le_right _ _
    have hle : (allocResult s).appliedToPoints +
        min s.closingCosts (maxUsableCredit s - (allocResult s).appliedToPoints)
        ≤ maxUsableCredit s := by linarith
    calc (allocResult s).appliedToPoints +
        min s.closingCosts (maxUsableCredit s - (allocResult s).appliedToPoints)
        ≤ maxUsableCredit s := hle
      _ = min s.sellerCredit (min (programCapDollars s)
            (pointsCostOf s + s.closingCosts)) := by
          simp [maxUsableCredit, eligibleCosts]

/-- C3: every accepted allocation step has strictly positive monthly
savings and a (finite) break-even of at most 84 months. -/
theorem allocationSteps_sound (s : ScenarioInput) :
    ∀ x ∈ (computeScenario s).allocationSteps,
      0 < x.monthlySave ∧ x.breakEven ≤ 84 := by
  intro x hx
  rw [computeScenario_allocationSteps] at hx
  have h := (allocResult_invariant s).2 x hx
  exact ⟨h.2.1, h.2.2.2⟩

/-- C9: `appliedToPoints` is the sum of the accepted steps' `pointsCost`
fields, every accepted step costs `loanAmount * 0.005`, and therefore
`appliedToPoints = 0.005 * loanAmount * (number of steps)`. -/
theorem appliedToPoints_step_sum (s : ScenarioInput) :
    (computeScenario s).appliedToPoints =
        ((computeScenario s).allocationSteps.map AllocStep.pointsCost).sum ∧
      (∀ x ∈ (computeScenario s).allocationSteps,
        x.pointsCost = resolvedLoanAmount s * 0.005) ∧
      (computeScenario s).appliedToPoints =
        0.005 * resolvedLoanAmount s * (computeScenario s).allocationSteps.length := by
  have inv := allocResult_invariant s
  have hconst : ∀ x ∈ (allocResult s).steps,
      x.pointsCost = resolvedLoanAmount s * 0.005 := by
    intro x hx
    have hx' := (inv.2 x hx).1
    rw [hx']
    unfold allocStepCost stepPointsPct
    norm_num
  refine ⟨?_, ?_, ?_⟩
  · rw [computeScenario_appliedToPoints, computeScenario_allocationSteps]
    exact inv.1
  · rw [computeScenario_allocationSteps]
    exact hconst
  · rw [computeScenario_appliedToPoints, computeScenario_allocationSteps]
    rw [inv.1, sum_pointsCost_const _ _ hconst]
    ring

/-- With a positive step cost, the loop exits by its own logic once the
fuel covers the remaining credit: each completed iteration pays exactly one
step cost out of `remaining`. -/
theorem allocLoop_done_of_le (la : ℚ) (tm : ℕ) (hc : 0 < allocStepCost la) :
    ∀ (fuel : ℕ) (st : LoopSt), st.remaining ≤ (fuel : ℚ) * allocStepCost la →
      (allocLoop la tm fuel st).2 = true := by
  intro fuel
  induction fuel with
  | zero =>
    intro st h
    rw [allocLoop_zero]
    simp only [decide_eq_true_eq]
    simpa using h
  | succ n ih =>
    intro st h
    rw [allocLoop_succ]
    cases hit : allocIter la tm st with
    | none => rfl
    | some st' =>
      apply ih
      obtain ⟨ms, _, _, rfl⟩ := allocIter_some la tm st st' hit
      have hcast : ((n + 1 : ℕ) : ℚ) = (n : ℚ) + 1 := by push_cast; ring
      rw [hcast] at h
      simp only []
      linarith

/-- C8: for a positive resolved loan amount the buydown loop terminates
within `ceil(maxUsableCredit / stepCost)` body iterations (`allocFuel`),
where the step cost is `loanAmount * 0.005`; the `true` flag means the
fuelled unfolding reached the loop's own exit within that bound. -/
theorem buydown_loop_bounded (s : ScenarioInput)
    (h : 0 < resolvedLoanAmount s) :
    (allocLoop (resolvedLoanAmount s) s.termMonths (allocFuel s)
        (allocState0 s)).2 = true ∧
      allocStepCost (resolvedLoanAmount s) = resolvedLoanAmount s * 0.005 ∧
      allocFuel s = (⌈maxUsableCredit s / (resolvedLoanAmount s * 0.005)⌉).toNat := by
  have hstep : allocStepCost (resolvedLoanAmount s) = resolvedLoanAmount s * 0.005 := by
    unfold allocStepCost stepPointsPct
    norm_num
  have hc : 0 < allocStepCost (resolvedLoanAmount s) := by
    rw [hstep]
    exact mul_pos h (by norm_num)
  refine ⟨?_, hstep, by rw [allocFuel, hstep]⟩
  apply allocLoop_done_of_le _ _ hc
  show maxUsableCredit s ≤ (allocFuel s : ℚ) * allocStepCost (resolvedLoanAmount s)
  set c := allocStepCost (resolvedLoanAmount s) with hcdef
  set q := maxUsableCredit s / c with hq
  have h1 : q ≤ (⌈q⌉ : ℚ) := Int.le_ceil q
  have h2 : (⌈q⌉ : ℚ) ≤ ((⌈q⌉.toNat : ℕ) : ℚ) := by
    have := Int.self_le_toNat ⌈q⌉
    exact_mod_cast this
  have hmu : maxUsableCredit s = q * c := by
    rw [hq]
    field_simp
  rw [hmu]
  have : q * c ≤ ((⌈q⌉.toNat : ℕ) : ℚ) * c :=
    mul_le_mul_of_nonneg_right (le_trans h1 h2) (le_of_lt hc)
  simpa [allocFuel, hq, hcdef] using this

/-- Per-step cost bound summed over a list of steps. -/
theorem sum_pointsCost_le (l : List AllocStep)
    (h : ∀ x ∈ l, x.pointsCost ≤ 84 * x.monthlySave) :
    (l.map AllocStep.pointsCost).sum ≤ 84 * (l.map AllocStep.monthlySave).sum := by
  induction l with
  | nil => simp
  | cons x xs ih =>
    have hx := h x (by simp)
    have hxs := ih (fun y hy => h y (by simp [hy]))
    simp only [List.map_cons, List.sum_cons, mul_add]
    linarith

/-- A nonempty list of steps with positive savings has positive total
savings. -/
theorem sum_monthlySave_pos (l : List AllocStep) (hne : l ≠ [])
    (h : ∀ x ∈ l, 0 < x.monthlySave) :
    0 < (l.map AllocStep.monthlySave).sum := by
  have nonneg : ∀ (l' : List AllocStep), (∀ x ∈ l', 0 < x.monthlySave) →
      0 ≤ (l'.map AllocStep.monthlySave).sum := by
    intro l'
    induction l' with
    | nil => intro _; simp
    | cons y ys ih =>
      intro hy
      have h1 := hy y (by simp)
      have h2 := ih (fun z hz => hy z (by simp [hz]))
      simp only [List.map_cons, List.sum_cons]
      linarith
  cases l with
  | nil => exact absurd rfl hne
  | cons x xs =>
    have h1 := h x (by simp)
    have h2 := nonneg xs (fun z hz => h z (by simp [hz]))
    simp only [List.map_cons, List.sum_cons]
    linarith

/-- C10: whenever `breakEvenMonthsOnPoints` is produced (at least one step
was accepted), it is at most 84 months: it rounds
`appliedToPoints / (total monthly savings)`, a quotient bounded by 84
because each step's own break-even is bounded by 84. -/
theorem breakEven_months_le (s : ScenarioInput)
    (h1 : 0 < resolvedLoanAmount s) (h2 : 0 ≤ s.sellerCredit)
    (h3 : 0 ≤ s.closingCosts) (b : ℤ)
    (hb : (computeScenario s).breakEvenMonthsOnPoints = some b) :
    b ≤ 84 := by
  rw [computeScenario_breakEvenMonthsOnPoints] at hb
  by_cases he : (allocResult s).steps.isEmpty
  · simp [he] at hb
  · simp only [he, if_false, Option.some.injEq] at hb
    have hne : (allocResult s).steps ≠ [] := by
      intro hcontra
      rw [hcontra] at he
      exact he rfl
    have inv := allocResult_invariant s
    have hstep : ∀ x ∈ (allocResult s).steps,
        0 < x.monthlySave ∧ x.pointsCost ≤ 84 * x.monthlySave := by
      intro x hx
      obtain ⟨hpc, hms, hbe, hle⟩ := inv.2 x hx
      refine ⟨hms, ?_⟩
      have hceil : x.pointsCost / x.monthlySave ≤ (x.breakEven : ℚ) := by
        rw [hbe]
        exact Int.le_ceil _
      have h84 : (x.breakEven : ℚ) ≤ 84 := by exact_mod_cast hle
      have := (div_le_iff hms).1 (le_trans hceil h84)
      linarith
    have hsum : ((allocResult s).steps.map AllocStep.pointsCost).sum ≤
        84 * ((allocResult s).steps.map AllocStep.monthlySave).sum :=
      sum_pointsCost_le _ (fun x hx => (hstep x hx).2)
    have hpos : 0 < ((allocResult s).steps.map AllocStep.monthlySave).sum :=
      sum_monthlySave_pos _ hne (fun x hx => (hstep x hx).1)
    have ht : sumMonthlySave (allocResult s).steps =
        ((allocResult s).steps.map AllocStep.monthlySave).sum :=
      sumMonthlySave_eq _
    rw [ht] at hb
    have htne : ((allocResult s).steps.map AllocStep.monthlySave).sum ≠ 0 :=
      ne_of_gt hpos
    have hb' : jsRound ((allocResult s).appliedToPoints /
        ((allocResult s).steps.map AllocStep.monthlySave).sum) = b := by
      simpa [htne] using hb
    have hdiv : (allocResult s).appliedToPoints /
        ((allocResult s).steps.map AllocStep.monthlySave).sum ≤ 84 := by
      rw [div_le_iff hpos, inv.1]
      linarith
    have hfl84 : (⌊(84 : ℚ) + 1/2⌋ : ℤ) = 84 :=
      floor_eval _ 84 (by norm_num) (by norm_num)
    have hmono : b ≤ ⌊(84 : ℚ) + 1/2⌋ := by
      rw [← hb']
      unfold jsRound
      exact Int.floor_le_floor (by linarith)
    rw [hfl84] at hmono
    exact hmono

/-- The two warning strings are distinct (they start with different
characters). -/
theorem capWarning_ne_usable (p : Program) (c : ℚ) :
    capWarning p c ≠ usableWarning := by
  intro h
  have hd := congrArg String.data h
  simp only [capWarning, usableWarning, String.data_append] at hd
  have h2 := congrArg List.head? hd
  simp at h2

/-- C7: the warnings list is exactly the cap warning (present iff the
seller credit exceeds the program cap in dollars) followed by the
usable-credit warning (present iff the applied seller credit falls short
of the seller credit), with no other entries; and with program Jumbo,
price 500000 and seller credit 20000 the exact cap warning string
"Seller credit exceeds typical Jumbo cap (~3.0%)." is present. -/
theorem warnings_characterization (s : ScenarioInput) :
    ((computeScenario s).warnings =
        (if programCapDollars s < s.sellerCredit
          then [capWarning s.program (pctCapOf s)] else [])
        ++ (if (computeScenario s).appliedSellerCredit < s.sellerCredit
              then [usableWarning] else [])) ∧
      (capWarning s.program (pctCapOf s) ∈ (computeScenario s).warnings ↔
        programCapDollars s < s.sellerCredit) ∧
      (usableWarning ∈ (computeScenario s).warnings ↔
        (computeScenario s).appliedSellerCredit < s.sellerCredit) ∧
      (s.program = Program.Jumbo → s.price = 500000 → s.sellerCredit = 20000 →
        "Seller credit exceeds typical Jumbo cap (~3.0%)." ∈
          (computeScenario s).warnings) := by
  have hne : capWarning s.program (pctCapOf s) ≠ usableWarning :=
    capWarning_ne_usable _ _
  have hne' : usableWarning ≠ capWarning s.program (pctCapOf s) := hne.symm
  have hw := computeScenario_warnings s
  refine ⟨hw, ?_, ?_, ?_⟩
  · rw [hw]
    by_cases hcap : programCapDollars s < s.sellerCredit <;>
      by_cases huse : (computeScenario s).appliedSellerCredit < s.sellerCredit <;>
        simp [hcap, huse, hne]
  · rw [hw]
    by_cases hcap : programCapDollars s < s.sellerCredit <;>
      by_cases huse : (computeScenario s).appliedSellerCredit < s.sellerCredit <;>
        simp [hcap, huse, hne']
  · intro hp hprice hsc
    have hpc : pctCapOf s = 0.03 := by
      unfold pctCapOf defaultCap
      rw [hp]
    have hcap : programCapDollars s < s.sellerCredit := by
      unfold programCapDollars
      rw [hpc, hprice, hsc]
      norm_num
    have hfl : (⌊|(0.03 : ℚ) * 100| * 10 + 1/2⌋ : ℤ) = 30 := by
      rw [show |(0.03 : ℚ) * 100| = 3 by norm_num [abs_of_nonneg]]
      exact floor_eval _ 30 (by norm_num) (by norm_num)
    have hstr : capWarning s.program (pctCapOf s) =
        "Seller credit exceeds typical Jumbo cap (~3.0%)." := by
      rw [hp, hpc]
      unfold capWarning toFixed1String Program.name
      rw [hfl]
      have hsign : ¬ ((3e-2 : ℚ) * 100 < 0) := by norm_num
      simp only [hsign, if_false, Int.toNat_ofNat]
      rfl
    rw [hw, ← hstr]
    simp [hcap]

/-! ### Concrete evaluations (used by the witnesses) -/

theorem resolvedLoanAmount_scenQuick : resolvedLoanAmount scenQuick = 100000 := by
  norm_num [resolvedLoanAmount, scenQuick]

theorem allocFuel_scenQuick : allocFuel scenQuick = 2 := by
  have hc : (⌈(6/5 : ℚ)⌉ : ℤ) = 2 := ceil_eval _ 2 (by norm_num) (by norm_num)
  have htn : Int.toNat 2 = 2 := rfl
  norm_num [allocFuel, maxUsableCredit, programCapDollars, eligibleCosts, pointsCostOf,
    resolvedLoanAmount, pctCapOf, defaultCap, allocStepCost, stepPointsPct, scenQuick, hc,
    htn]

theorem allocState0_scenQuick :
    allocState0 scenQuick =
      { remaining := 600, candidateRate := 55/8, appliedToPoints := 0, steps := [] } := by
  norm_num [allocState0, maxUsableCredit, programCapDollars, eligibleCosts, pointsCostOf,
    resolvedLoanAmount, pctCapOf, defaultCap, scenQuick]

theorem allocIter_scenQuick_1 :
    allocIter 100000 1
        { remaining := 600, candidateRate := 55/8, appliedToPoints := 0, steps := [] } =
      some { remaining := 100, candidateRate := 27/4, appliedToPoints := 500,
             steps := [{ rate := 27/4, pointsCost := 500, monthlySave := 125/12,
                         breakEven := 48 }] } := by
  have hmax : max (0:ℚ) (125/12) = 125/12 := max_eq_right (by norm_num)
  have hbe : (⌈(500 : ℚ) / (125/12)⌉ : ℤ) = 48 := by
    rw [show (500 : ℚ) / (125/12) = 48 by norm_num]
    exact ceil_eval _ 48 (by norm_num) (by norm_num)
  norm_num [allocIter, allocStepCost, stepPointsPct, stepRate, amortPayment, hmax, hbe]

theorem allocIter_scenQuick_2 :
    allocIter 100000 1
        { remaining := 100, candidateRate := 27/4, appliedToPoints := 500,
          steps := [{ rate := 27/4, pointsCost := 500, monthlySave := 125/12,
                      breakEven := 48 }] } = none := by
  norm_num [allocIter, allocStepCost, stepPointsPct]

theorem allocResult_scenQuick :
    allocResult scenQuick =
      { remaining := 100, candidateRate := 27/4, appliedToPoints := 500,
        steps := [{ rate := 27/4, pointsCost := 500, monthlySave := 125/12,
                    breakEven := 48 }] } := by
  have hlock : scenQuick.lockRate = false := rfl
  have hterm : scenQuick.termMonths = 1 := rfl
  unfold allocResult
  rw [hlock, resolvedLoanAmount_scenQuick, allocFuel_scenQuick, allocState0_scenQuick, hterm]
  simp only [Bool.false_eq_true, if_false]
  rw [allocLoop_succ, allocIter_scenQuick_1]
  simp only []
  rw [allocLoop_succ, allocIter_scenQuick_2]

theorem breakEvenMonths_scenQuick :
    (computeScenario scenQuick).breakEvenMonthsOnPoints = some 48 := by
  rw [computeScenario_breakEvenMonthsOnPoints, allocResult_scenQuick]
  have hsum : sumMonthlySave
      [{ rate := 27/4, pointsCost := 500, monthlySave := 125/12, breakEven := 48 }] =
      125/12 := by
    norm_num [sumMonthlySave]
  have hr : jsRound ((500 : ℚ) / (125/12)) = 48 := by
    unfold jsRound
    rw [show (500 : ℚ) / (125/12) = 48 by norm_num]
    exact floor_eval _ 48 (by norm_num) (by norm_num)
  simp [hsum, hr, show (125/12 : ℚ) ≠ 0 by norm_num]

/-! ### Witnesses -/

/-- Witness for C1 at the spec's locked scenario B. -/
theorem lockRate_no_buydown_witness :
    scenB.lockRate = true ∧
      ((computeScenario scenB).appliedToPoints = 0 ∧
        (computeScenario scenB).allocationSteps = [] ∧
        (computeScenario scenB).finalRate = none) :=
  ⟨rfl, lockRate_no_buydown scenB rfl⟩

/-- Witness for C2 at the spec's scenario B shape. -/
theorem credit_split_invariant_witness :
    (0 ≤ scenB.sellerCredit ∧ 0 ≤ scenB.closingCosts ∧ 0 < resolvedLoanAmount scenB) ∧
      ((computeScenario scenB).appliedToPoints + (computeScenario scenB).appliedToCosts =
          (computeScenario scenB).appliedSellerCredit ∧
        (computeScenario scenB).appliedSellerCredit ≤
          min scenB.sellerCredit (min (programCapDollars scenB)
            ((computeScenario scenB).pointsCost + scenB.closingCosts))) := by
  have h1 : (0:ℚ) ≤ scenB.sellerCredit := by norm_num [scenB]
  have h2 : (0:ℚ) ≤ scenB.closingCosts := by norm_num [scenB]
  have h3 : 0 < resolvedLoanAmount scenB := by norm_num [resolvedLoanAmount, scenB]
  exact ⟨⟨h1, h2, h3⟩, credit_split_invariant scenB h1 h2 h3⟩

/-- Witness for C3: the one accepted step of `scenQuick` has positive
savings and break-even 48. -/
theorem allocationSteps_sound_witness :
    quickStep ∈ (computeScenario scenQuick).allocationSteps ∧
      (0 < quickStep.monthlySave ∧ quickStep.breakEven ≤ 84) := by
  have hmem : quickStep ∈ (computeScenario scenQuick).allocationSteps := by
    rw [computeScenario_allocationSteps, allocResult_scenQuick]
    simp [quickStep]
  exact ⟨hmem, allocationSteps_sound scenQuick _ hmem⟩

/-- Witness for C4 at the spec's FHA scenario C (long term, not
high-balance, LTV above 90%, factor 0.0055). -/
theorem fha_mip_factor_table_witness :
    normalizeLtv scenC = some 0.97 ∧
      normalizeLoanAmount scenC (normalizeLtv scenC) = some 300000 ∧
      scenC.termMonths ≠ 0 ∧
      getStandardFhaAnnualMipFactor scenC = some
        (if 180 < scenC.termMonths then
          if 726200 < (300000 : ℚ) then
            (if (0.97 : ℚ) ≤ 0.90 then 0.0055 else 0.0060)
          else (if (0.97 : ℚ) ≤ 0.90 then 0.0050 else 0.0055)
        else
          if 726200 < (300000 : ℚ) then
            (if (0.97 : ℚ) ≤ 0.90 then 0.0040 else 0.0065)
          else (if (0.97 : ℚ) ≤ 0.90 then 0.0015 else 0.0040)) := by
  have hl : normalizeLtv scenC = some 0.97 := by
    norm_num [normalizeLtv, scenC]
  have ha : normalizeLoanAmount scenC (normalizeLtv scenC) = some 300000 := by
    norm_num [normalizeLoanAmount, normalizeLtv, scenC]
  have ht : scenC.termMonths ≠ 0 := by norm_num [scenC]
  exact ⟨hl, ha, ht, fha_mip_factor_table scenC 0.97 300000 hl ha ht⟩

/-- Witness for C7 at the spec's scenario D shape: the exact Jumbo cap
warning string is present. -/
theorem warnings_characterization_witness :
    scenJumbo.program = Program.Jumbo ∧ scenJumbo.price = 500000 ∧
      scenJumbo.sellerCredit = 20000 ∧
      "Seller credit exceeds typical Jumbo cap (~3.0%)." ∈
        (computeScenario scenJumbo).warnings :=
  ⟨rfl, rfl, rfl, (warnings_characterization scenJumbo).2.2.2 rfl rfl rfl⟩

/-- Witness for C8 at `scenQuick` (loan 100000, fuel 2). -/
theorem buydown_loop_bounded_witness :
    0 < resolvedLoanAmount scenQuick ∧
      ((allocLoop (resolvedLoanAmount scenQuick) scenQuick.termMonths
          (allocFuel scenQuick) (allocState0 scenQuick)).2 = true ∧
        allocStepCost (resolvedLoanAmount scenQuick) =
          resolvedLoanAmount scenQuick * 0.005 ∧
        allocFuel scenQuick =
          (⌈maxUsableCredit scenQuick /
            (resolvedLoanAmount scenQuick * 0.005)⌉).toNat) := by
  have h : 0 < resolvedLoanAmount scenQuick := by
    norm_num [resolvedLoanAmount, scenQuick]
  exact ⟨h, buydown_loop_bounded scenQuick h⟩

/-- Witness for C9: the accepted step of `scenQuick` costs exactly
`loanAmount * 0.005 = 500`. -/
theorem appliedToPoints_step_sum_witness :
    quickStep ∈ (computeScenario scenQuick).allocationSteps ∧
      quickStep.pointsCost = resolvedLoanAmount scenQuick * 0.005 := by
  have hmem : quickStep ∈ (computeScenario scenQuick).allocationSteps := by
    rw [computeScenario_allocationSteps, allocResult_scenQuick]
    simp [quickStep]
  exact ⟨hmem, (appliedToPoints_step_sum scenQuick).2.1 _ hmem⟩

/-- Witness for C10: `scenQuick` produces a break-even summary of 48
months, within the 84-month bound. -/
theorem breakEven_months_le_witness :
    (0 < resolvedLoanAmount scenQuick ∧ (0:ℚ) ≤ scenQuick.sellerCredit ∧
        (0:ℚ) ≤ scenQuick.closingCosts ∧
        (computeScenario scenQuick).breakEvenMonthsOnPoints = some 48) ∧
      (48 : ℤ) ≤ 84 := by
  have h1 : 0 < resolvedLoanAmount scenQuick := by
    norm_num [resolvedLoanAmount, scenQuick]
  have h2 : (0:ℚ) ≤ scenQuick.sellerCredit := by norm_num [scenQuick]
  have h3 : (0:ℚ) ≤ scenQuick.closingCosts := by norm_num [scenQuick]
  have hb := breakEvenMonths_scenQuick
  exact ⟨⟨h1, h2, h3, hb⟩, breakEven_months_le scenQuick h1 h2 h3 48 hb⟩

end SellerCredit
